import Mathlib

/-!
Verification of the `mbtiles` extract utility (`src/main.rs`).

The repository is a small Rust tool with one operation: extract the tiles of an
MBTiles archive that fall inside a geographic bounding box into a freshly
created MBTiles archive.  This file gives a shallow embedding of the program:

* `BoundingBox.tile_bounds` embeds the pure coordinate mapper
  (`BoundingBox::tile_bounds`, main.rs lines 65-89).  The Rust code computes
  with `f64`; the embedding idealises IEEE doubles as real numbers (every
  finite double is a rational, and all quantities appearing here are far from
  the rounding granularity), and models the parsed decimal inputs as exact
  rationals.
* `BoundingBoxF.tile_bounds_i32` re-embeds the same function at the `i32`
  machine level for the robustness-at-extremes property: `2_i32.pow` and the
  TMS subtractions wrap modulo `2^32` (release semantics), the
  `f64`-to-`i32` casts saturate, and the coordinates range over all doubles,
  `NaN`/`±inf` included.
* `BoundingBox.parse` embeds `BoundingBox::parse` (lines 51-63); Rust's
  `str::parse::<f64>` is modelled for plain signed decimal numerals.
* `extract_tiles` embeds `extract_tiles` (lines 92-164) as a function from a
  small filesystem model (paths to SQLite file states) to a new filesystem and
  an `Except` result.  SQLite/rusqlite behaviour that the code relies on is
  modelled explicitly and documented where it is introduced (in particular
  `connOpen`: `rusqlite::Connection::open` uses SQLite's default
  `READ_WRITE | CREATE` flags).
-/

namespace Mbtiles

open Real

/-- A parsed bounding box, in degrees, in the parse order `N,E,S,W` of the
source (`BoundingBox` struct, main.rs lines 42-48).  The Rust fields are `f64`;
every finite `f64` is a rational number, so the fields are modelled as `ℚ`
(non-finite values `NaN`/`±inf` are outside the model). -/
structure BoundingBox where
  north : ℚ
  east : ℚ
  south : ℚ
  west : ℚ
deriving DecidableEq

/-- Degrees to radians, as `f64::to_radians`: multiplication by `π / 180`. -/
noncomputable def toRadians (x : ℝ) : ℝ := x * π / 180

/-- The clamp `v.max(0).min(n - 1)` applied to each component of the result of
`tile_bounds` (main.rs lines 83-88). -/
def clamp (v n : ℤ) : ℤ := min (max v 0) (n - 1)

/-- Embedding of `BoundingBox::tile_bounds` (main.rs lines 65-89): `n = 2^zoom`;
slippy-map column indices from west/east, slippy-map row indices from
north/south via the Web-Mercator inverse projection
`(1 - asinh(tan(lat)) / π) / 2 * n`, the TMS flip `n - 1 - y`, and the final
clamp of each component to `[0, n-1]`.  `f64` arithmetic is idealised as real
arithmetic and the float-to-`i32` casts of already-floored values as `Int.floor`. -/
noncomputable def BoundingBox.tile_bounds (b : BoundingBox) (zoom : ℕ) : ℤ × ℤ × ℤ × ℤ :=
  let n : ℤ := 2 ^ zoom
  let x_min : ℤ := ⌊((b.west : ℝ) + 180) / 360 * (n : ℝ)⌋
  let x_max : ℤ := ⌊((b.east : ℝ) + 180) / 360 * (n : ℝ)⌋
  let y_min : ℤ := ⌊(1 - Real.arsinh (Real.tan (toRadians (b.north : ℝ))) / π) / 2 * (n : ℝ)⌋
  let y_max : ℤ := ⌊(1 - Real.arsinh (Real.tan (toRadians (b.south : ℝ))) / π) / 2 * (n : ℝ)⌋
  let tms_y_min : ℤ := n - 1 - y_max
  let tms_y_max : ℤ := n - 1 - y_min
  (clamp x_min n, clamp x_max n, clamp tms_y_min n, clamp tms_y_max n)

/-- Modelled from the spec's reference algorithm (§4.1): columns
`col = ⌊(lon + 180) / 360 * n⌋` with `col_min` from `west` and `col_max` from
`east`; slippy rows `row = ⌊(1 - asinh(tan(lat_radians)) / π) / 2 * n⌋`; the TMS
flip `tms_min = n - 1 - row(south)`, `tms_max = n - 1 - row(north)`; then each
of the four components clamped independently to `[0, n-1]`. -/
noncomputable def BoundingBox.tile_bounds_spec (b : BoundingBox) (zoom : ℕ) : ℤ × ℤ × ℤ × ℤ :=
  let n : ℤ := 2 ^ zoom
  let col : ℚ → ℤ := fun lon => ⌊((lon : ℝ) + 180) / 360 * (n : ℝ)⌋
  let row : ℚ → ℤ := fun lat => ⌊(1 - Real.arsinh (Real.tan (toRadians (lat : ℝ))) / π) / 2 * (n : ℝ)⌋
  let tms_min : ℤ := n - 1 - row b.south
  let tms_max : ℤ := n - 1 - row b.north
  (clamp (col b.west) n, clamp (col b.east) n, clamp tms_min n, clamp tms_max n)

/-- An IEEE-754 double at the interface of `tile_bounds`: a finite value
(every finite double is a rational number) or one of the three non-finite
values `+inf`, `-inf`, `NaN`. -/
inductive F64 : Type
  | fin (q : ℚ) : F64
  | inf : F64
  | ninf : F64
  | nan : F64

/-- A bounding box whose fields range over all doubles, non-finite values
included (the `BoundingBox` struct of main.rs lines 42-48 without the
finiteness idealisation of `BoundingBox`). -/
structure BoundingBoxF where
  north : F64
  east : F64
  south : F64
  west : F64

/-- Two's-complement wrap-around of `i32` arithmetic: the representative of
`x` modulo `2^32` in `[-2^31, 2^31 - 1]`.  A Rust release build wraps on
integer overflow; a debug build panics at exactly the points where `wrap32`
is not the identity. -/
def wrap32 (x : ℤ) : ℤ := (x + 2 ^ 31) % 2 ^ 32 - 2 ^ 31

/-- Rust's saturating `f64`-to-`i32` cast (`expr as i32`, never a panic)
applied to an already-floored finite value. -/
def sat32 (v : ℤ) : ℤ := min (max v (-(2 ^ 31))) (2 ^ 31 - 1)

/-- The column computation `((lon + 180.0) / 360.0 * n as f64).floor() as i32`
of main.rs lines 69-70, for an arbitrary double `lon`.  A finite `lon` goes
through the (idealised-exact) arithmetic, the floor and the saturating cast.
`±inf` propagates through `+ 180.0` and `/ 360.0` unchanged and multiplies by
the sign of `n` (with `±inf * 0.0 = NaN`); `NaN` propagates throughout; the
cast sends `+inf` to `2^31 - 1`, `-inf` to `-2^31` and `NaN` to `0`. -/
def F64.colFloor : F64 → ℤ → ℤ
  | .fin q, n => sat32 ⌊(q + 180) / 360 * (n : ℚ)⌋
  | .inf, n => if 0 < n then 2 ^ 31 - 1 else if n = 0 then 0 else -(2 ^ 31)
  | .ninf, n => if 0 < n then -(2 ^ 31) else if n = 0 then 0 else 2 ^ 31 - 1
  | .nan, _ => 0

/-- The row computation
`((1.0 - lat.to_radians().tan().asinh() / PI) / 2.0 * n as f64).floor() as i32`
of main.rs lines 72-76, for an arbitrary double `lat`.  A finite `lat` goes
through the (idealised-real) Mercator arithmetic, the floor and the saturating
cast.  For `lat = ±inf` already `f64::tan` returns `NaN` (`to_radians` maps
`±inf` to `±inf`), so for every non-finite `lat` a `NaN` propagates to the
cast, which sends it to `0` — whatever `n` is, since `NaN * 0.0 = NaN`. -/
noncomputable def F64.rowFloor : F64 → ℤ → ℤ
  | .fin q, n => sat32 ⌊(1 - Real.arsinh (Real.tan (toRadians (q : ℝ))) / π) / 2 * (n : ℝ)⌋
  | _, _ => 0

/-- The clamp `v.max(0).min(n - 1)` of main.rs lines 83-88 at the `i32`
level: the subtraction `n - 1` wraps (`i32::max`/`i32::min` themselves cannot
overflow). -/
def clamp32 (v n : ℤ) : ℤ := min (max v 0) (wrap32 (n - 1))

/-- Embedding of `BoundingBox::tile_bounds` (main.rs lines 65-89) at the `i32`
machine level, refining `tile_bounds`: `n = 2_i32.pow(zoom as u32)` and the
TMS subtractions wrap modulo `2^32` (release semantics — a debug build panics
wherever a wrap occurs: at every zoom `≥ 31`, and already at zooms 29-30 when
a near-pole latitude saturates a row index), the float-to-`i32` casts
saturate, and the box's coordinates range over all doubles, `NaN`/`±inf`
included.  Where no wrap and no saturation occurs this computes exactly
`tile_bounds`. -/
noncomputable def BoundingBoxF.tile_bounds_i32 (b : BoundingBoxF) (zoom : ℕ) : ℤ × ℤ × ℤ × ℤ :=
  let n : ℤ := wrap32 (2 ^ zoom)
  let x_min : ℤ := b.west.colFloor n
  let x_max : ℤ := b.east.colFloor n
  let y_min : ℤ := b.north.rowFloor n
  let y_max : ℤ := b.south.rowFloor n
  let tms_y_min : ℤ := wrap32 (wrap32 (n - 1) - y_max)
  let tms_y_max : ℤ := wrap32 (wrap32 (n - 1) - y_min)
  (clamp32 x_min n, clamp32 x_max n, clamp32 tms_y_min n, clamp32 tms_y_max n)

/-- The whole-world bounding box of the spec's testable property (§8):
`north = 85.0511, east = 180, south = -85.0511, west = -180`. -/
def worldBBox : BoundingBox := ⟨85.0511, 180, -85.0511, -180⟩

/-- The auxiliary angle `(49489/1800000)·π = π/2 - toRadians 85.0511`
(the colatitude of the whole-world box's north edge, in radians). -/
noncomputable def wAng : ℝ := (49489 / 1800000 : ℝ) * π

/-- The Mercator ordinate `asinh (tan lat)` of the whole-world box's north
edge, the quantity appearing in `tile_bounds` for `north = 85.0511`. -/
noncomputable def mercNorth : ℝ := Real.arsinh (Real.tan (toRadians ((85.0511 : ℚ) : ℝ)))

/-- Value of a list of decimal digit characters, most significant first. -/
def digitsVal (l : List Char) : ℕ := l.foldl (fun a c => 10 * a + (c.toNat - 48)) 0

/-- Splitting a character list at every occurrence of `c`, keeping empty
pieces: the behaviour of Rust's `str::split(',')` used at main.rs line 52
(`"" ↦ [""]`, `"a,,b" ↦ ["a", "", "b"]`). -/
def splitOnChar (c : Char) : List Char → List (List Char)
  | [] => [[]]
  | ch :: rest =>
      match splitOnChar c rest with
      | [] => [[]]
      | cur :: others => if ch = c then [] :: cur :: others else (ch :: cur) :: others

/-- Models Rust's `str::trim` (main.rs lines 58-61) on ASCII whitespace. -/
def trimChars (l : List Char) : List Char :=
  ((l.dropWhile Char.isWhitespace).reverse.dropWhile Char.isWhitespace).reverse

/-- Models Rust's `str::parse::<f64>` on the inputs relevant here: a plain
signed decimal numeral (optional `-`/`+` sign, digits, optional `.` and
fraction digits), evaluated exactly as a rational.  Exponent notation and the
textual `inf`/`NaN` forms accepted by Rust are outside the model, as are the
rounding of long numerals to the nearest `f64`. -/
def parseDecimal (l : List Char) : Option ℚ :=
  let neg : Bool := l.head? = some '-'
  let t : List Char := if l.head? = some '-' ∨ l.head? = some '+' then l.tail else l
  let signed : ℚ → ℚ := fun q => if neg then -q else q
  match splitOnChar '.' t with
  | [ip] =>
      if ip ≠ [] ∧ ip.all Char.isDigit then some (signed (digitsVal ip : ℚ)) else none
  | [ip, fp] =>
      if ip ++ fp ≠ [] ∧ ip.all Char.isDigit ∧ fp.all Char.isDigit then
        some (signed ((digitsVal ip : ℚ) + (digitsVal fp : ℚ) / 10 ^ fp.length))
      else none
  | _ => none

/-- Errors of `BoundingBox::parse` (main.rs lines 51-63): the explicit
four-field check, and a failed `parse::<f64>` of a field (the source attaches a
per-field context string; the model keeps one constructor). -/
inductive ParseError where
  | fieldCount
  | invalidValue
deriving DecidableEq

/-- Embedding of `BoundingBox::parse` (main.rs lines 51-63): split on `','`,
require exactly four parts, then trim and parse each part as a number, in the
order north, east, south, west. -/
def BoundingBox.parse (bbox_str : String) : Except ParseError BoundingBox :=
  match splitOnChar ',' bbox_str.toList with
  | [p0, p1, p2, p3] =>
      match parseDecimal (trimChars p0), parseDecimal (trimChars p1),
          parseDecimal (trimChars p2), parseDecimal (trimChars p3) with
      | some n, some e, some s, some w => .ok ⟨n, e, s, w⟩
      | _, _, _, _ => .error .invalidValue
  | _ => .error .fieldCount

/-- One row of the `tiles` table.  `zoom` is modelled as `ℕ` following the
spec's data model (§3: zoom is a non-negative integer); `col`/`row` are SQL
INTEGERs; `data` is the `tile_data` BLOB, with `none` modelling SQL NULL, which
`row.get::<_, Vec<u8>>` refuses to decode.  (A NULL `zoom_level`, `tile_column`
or `tile_row` can never reach the copy loop: the `WHERE` equality and `BETWEEN`
comparisons in the select are never satisfied by NULL.) -/
structure TileRow where
  zoom : ℕ
  col : ℤ
  row : ℤ
  data : Option (List ℕ)
deriving DecidableEq

/-- State of an SQLite database file as far as this program observes it:
whether the MBTiles schema (the `metadata` and `tiles` tables plus the unique
`tile_index`) exists, and the rows of the two tables.  Metadata columns are
`Option String`: `none` models a SQL NULL (or any non-TEXT value), which
`row.get::<_, String>` refuses to decode. -/
structure MBDb where
  hasSchema : Bool
  metadata : List (Option String × Option String)
  tiles : List TileRow
deriving DecidableEq

/-- A file on disk, as far as SQLite distinguishes: a database file, or a file
that is not an SQLite database (statements against it fail). -/
inductive FileKind where
  | db (d : MBDb)
  | notDb
deriving DecidableEq

/-- A freshly created SQLite database: no tables yet. -/
def emptyDb : MBDb := ⟨false, [], []⟩

/-- The filesystem model: an association list from paths to file states. -/
abbrev Fs := List (String × FileKind)

def fsLookup : Fs → String → Option FileKind
  | [], _ => none
  | (q, k) :: rest, p => if p = q then some k else fsLookup rest p

def fsSet : Fs → String → FileKind → Fs
  | [], p, k => [(p, k)]
  | (q, k0) :: rest, p, k => if p = q then (q, k) :: rest else (q, k0) :: fsSet rest p k

/-- Models `rusqlite::Connection::open` (used at main.rs lines 95 and 98),
which passes SQLite's default flags `SQLITE_OPEN_READ_WRITE | SQLITE_OPEN_CREATE`:
opening a missing path creates an empty database file and succeeds, and an
existing file is opened lazily with no validation of its contents (a non-database
file only fails once a statement runs against it). -/
def connOpen (fs : Fs) (p : String) : Fs × FileKind :=
  match fsLookup fs p with
  | some k => (fs, k)
  | none => (fsSet fs p (.db emptyDb), .db emptyDb)

/-- Error taxonomy of `extract_tiles`, one constructor per failing statement of
the source.  `sourceOpen` corresponds to the spec's `SourceUnreadable`
(the `context` at main.rs line 96); in the model it is never produced, because
`connOpen` (SQLite's default open) succeeds on a missing or corrupt path. -/
inductive ExtractError where
  | invalidBoundingBox
  | sourceOpen
  | schemaCreate
  | metadataQuery
  | metadataValue
  | tilesQuery
  | tileValue
  | tileInsert
deriving DecidableEq

/-- Models the `execute_batch` creating the output schema (main.rs lines
102-106): fails if the file is not a database or the tables already exist;
on success the file holds the schema with two empty tables (a database in
which the tables did not exist has no rows of them either). -/
def createSchema : FileKind → Except ExtractError MBDb
  | .notDb => .error .schemaCreate
  | .db d => if d.hasSchema then .error .schemaCreate else .ok ⟨true, [], []⟩

/-- Models preparing and running `SELECT name, value FROM metadata` on the
input connection (main.rs line 110): fails if the file is not a database or
has no `metadata` table. -/
def queryMetadata : FileKind → Except ExtractError (List (Option String × Option String))
  | .notDb => .error .metadataQuery
  | .db d => if d.hasSchema then .ok d.metadata else .error .metadataQuery

/-- Models the queries against the input `tiles` table (main.rs lines 125 and
132-135): fails if the file is not a database or has no `tiles` table. -/
def queryTiles : FileKind → Except ExtractError (List TileRow)
  | .notDb => .error .tilesQuery
  | .db d => if d.hasSchema then .ok d.tiles else .error .tilesQuery

/-- Models the metadata copy loop (main.rs lines 113-120): rows are decoded in
order, both columns as TEXT; the first row with a NULL (non-TEXT) column stops
the loop with an error.  Each insert is its own implicit transaction, so rows
copied before the failing one persist in the destination. -/
def copyMetadataRows :
    List (Option String × Option String) →
      List (Option String × Option String) × Option ExtractError
  | [] => ([], none)
  | (some n, some v) :: rest =>
      let r := copyMetadataRows rest
      ((some n, some v) :: r.1, r.2)
  | _ :: _ => ([], some .metadataValue)

/-- Rows that collide on the destination's unique index
`(zoom_level, tile_column, tile_row)` (main.rs line 105). -/
def sameCoord (a b : TileRow) : Prop := a.zoom = b.zoom ∧ a.col = b.col ∧ a.row = b.row

instance : DecidablePred fun p : TileRow × TileRow => sameCoord p.1 p.2 := by
  intro p; unfold sameCoord; infer_instance

instance sameCoordDecidable (a b : TileRow) : Decidable (sameCoord a b) := by
  unfold sameCoord; infer_instance

/-- Models the per-zoom select (main.rs lines 132-135, 144): the source rows
with the given `zoom_level` whose `tile_column` and `tile_row` lie between the
respective bounds, in table order. -/
def selectTiles (tiles : List TileRow) (z : ℕ) (r : ℤ × ℤ × ℤ × ℤ) : List TileRow :=
  tiles.filter fun t =>
    decide (t.zoom = z ∧ r.1 ≤ t.col ∧ t.col ≤ r.2.1 ∧ r.2.2.1 ≤ t.row ∧ t.row ≤ r.2.2.2)

/-- Models the inner copy loop (main.rs lines 152-156): decode `tile_data`
(failing on NULL), insert into the destination inside the open transaction
(failing on a unique-index collision with an already inserted row). -/
def insertTiles : List TileRow → List TileRow → Except ExtractError (List TileRow)
  | [], acc => .ok acc
  | t :: rest, acc =>
      match t.data with
      | none => .error .tileValue
      | some _ =>
          if acc.any fun u => decide (sameCoord u t) then .error .tileInsert
          else insertTiles rest (acc ++ [t])

def insertSorted (a : ℕ) : List ℕ → List ℕ
  | [] => [a]
  | b :: l => if a ≤ b then a :: b :: l else b :: insertSorted a l

def sortNat (l : List ℕ) : List ℕ := l.foldr insertSorted []

/-- Models `SELECT DISTINCT zoom_level FROM tiles ORDER BY zoom_level`
(main.rs line 125): the distinct zoom levels in ascending order. -/
def zoomLevels (tiles : List TileRow) : List ℕ := (sortNat (tiles.map TileRow.zoom)).dedup

/-- Models the outer copy loop (main.rs lines 141-157): for each zoom level in
order, select the source rows inside the mapper's rectangle and insert them;
the accumulator is the content of the single open transaction. -/
def copyAllTiles (src : List TileRow) (rect : ℕ → ℤ × ℤ × ℤ × ℤ) :
    List ℕ → List TileRow → Except ExtractError (List TileRow)
  | [], acc => .ok acc
  | z :: zs, acc =>
      match insertTiles (selectTiles src z (rect z)) acc with
      | .error e => .error e
      | .ok acc2 => copyAllTiles src rect zs acc2

/-- Embedding of `extract_tiles` (main.rs lines 92-164) over the filesystem
model, returning the filesystem after the run together with the result (the
copied-tile count, or the error of the first failing step).  The two
connections are modelled as snapshots taken at open time; effects on the
destination are written back to the filesystem at each step boundary, matching
SQLite durability: metadata inserts are individually committed, the tile copy
is one transaction (main.rs line 131) that is rolled back when dropped on
error and becomes visible only at `tx.commit()` (line 159). -/
noncomputable def extract_tiles (fs : Fs) (input output bbox_str : String) :
    Fs × Except ExtractError ℕ :=
  match BoundingBox.parse bbox_str with
  | .error _ => (fs, .error .invalidBoundingBox)
  | .ok bbox =>
      let o1 := connOpen fs input
      let o2 := connOpen o1.1 output
      match createSchema o2.2 with
      | .error e => (o2.1, .error e)
      | .ok outDb0 =>
          let fs3 := fsSet o2.1 output (.db outDb0)
          match queryMetadata o1.2 with
          | .error e => (fs3, .error e)
          | .ok rows =>
              let m := copyMetadataRows rows
              let outDb1 := { outDb0 with metadata := m.1 }
              let fs4 := fsSet fs3 output (.db outDb1)
              match m.2 with
              | some e => (fs4, .error e)
              | none =>
                  match queryTiles o1.2 with
                  | .error e => (fs4, .error e)
                  | .ok srcTiles =>
                      match copyAllTiles srcTiles bbox.tile_bounds
                          (zoomLevels srcTiles) [] with
                      | .error e => (fs4, .error e)
                      | .ok inserted =>
                          let outDb2 := { outDb1 with tiles := inserted }
                          (fsSet fs4 output (.db outDb2), .ok inserted.length)

/-- Decidable equality of `Except` results, for concrete evaluation. -/
instance {e a : Type} [DecidableEq e] [DecidableEq a] : DecidableEq (Except e a) := fun x y =>
  match x, y with
  | .error u, .error v => decidable_of_iff (u = v) (by simp)
  | .error _, .ok _ => isFalse (by simp)
  | .ok _, .error _ => isFalse (by simp)
  | .ok u, .ok v => decidable_of_iff (u = v) (by simp)

/-- Membership of a tile row in a `tile_bounds` rectangle. -/
def inRect (r : ℤ × ℤ × ℤ × ℤ) (t : TileRow) : Prop :=
  r.1 ≤ t.col ∧ t.col ≤ r.2.1 ∧ r.2.2.1 ≤ t.row ∧ t.row ≤ r.2.2.2

end Mbtiles

namespace Mbtiles

open Real

/-- C2: `tile_bounds` computes exactly the spec's reference algorithm:
columns via `⌊(lon + 180)/360 * n⌋` (west ↦ min, east ↦ max), slippy rows via
the Web-Mercator formula, the TMS flip `tms_min = n-1-row(south)`,
`tms_max = n-1-row(north)`, and independent clamping of each component. -/
theorem tile_bounds_refines_spec (b : BoundingBox) (zoom : ℕ) :
    b.tile_bounds zoom = b.tile_bounds_spec zoom := rfl

theorem wrap32_eq_self {x : ℤ} (h1 : -(2 ^ 31) ≤ x) (h2 : x < 2 ^ 31) : wrap32 x = x := by
  have hs : (2 : ℤ) ^ 31 + 2 ^ 31 = 2 ^ 32 := by norm_num
  unfold wrap32
  rw [Int.emod_eq_of_lt (by linarith) (by linarith)]
  ring

theorem wrap32_pow2 {z : ℕ} (hz : z ≤ 30) : wrap32 (2 ^ z) = 2 ^ z := by
  have h1 : (2 : ℤ) ^ z ≤ 2 ^ 30 := pow_le_pow_right₀ (by norm_num) hz
  have h0 : (0 : ℤ) ≤ 2 ^ z := by positivity
  exact wrap32_eq_self (by linarith) (by nlinarith)

/-- C3 (amended): under release-profile semantics (`i32` overflow wraps), for
every zoom `z ≤ 30` and every bounding box whatsoever — non-finite
(`NaN`/`±inf`) and out-of-range coordinates included — all four components
returned by the tile mapper lie within `[0, 2^z - 1]`.  Not at every zoom,
though: see `tile_bounds_i32_out_of_range_at_32`. -/
theorem tile_bounds_i32_mem_range (b : BoundingBoxF) (z : ℕ) (hz : z ≤ 30) :
    (0 ≤ (b.tile_bounds_i32 z).1 ∧ (b.tile_bounds_i32 z).1 ≤ 2 ^ z - 1) ∧
    (0 ≤ (b.tile_bounds_i32 z).2.1 ∧ (b.tile_bounds_i32 z).2.1 ≤ 2 ^ z - 1) ∧
    (0 ≤ (b.tile_bounds_i32 z).2.2.1 ∧ (b.tile_bounds_i32 z).2.2.1 ≤ 2 ^ z - 1) ∧
    (0 ≤ (b.tile_bounds_i32 z).2.2.2 ∧ (b.tile_bounds_i32 z).2.2.2 ≤ 2 ^ z - 1) := by
  have h1 : (1 : ℤ) ≤ 2 ^ z := one_le_pow₀ one_le_two
  have hle : (2 : ℤ) ^ z ≤ 2 ^ 30 := pow_le_pow_right₀ (by norm_num) hz
  have hn : wrap32 (2 ^ z) = 2 ^ z := wrap32_pow2 hz
  have hm : wrap32 (2 ^ z - 1) = 2 ^ z - 1 :=
    wrap32_eq_self (by nlinarith) (by nlinarith)
  have hclamp : ∀ v : ℤ,
      0 ≤ clamp32 v (wrap32 (2 ^ z)) ∧ clamp32 v (wrap32 (2 ^ z)) ≤ 2 ^ z - 1 := by
    intro v
    unfold clamp32
    rw [hn, hm]
    constructor
    · exact le_min (le_max_right v 0) (by omega)
    · exact min_le_right _ _
  exact ⟨hclamp _, hclamp _, hclamp _, hclamp _⟩

/-- C3 (counterexample): the original every-zoom claim fails at zoom 32:
`2_i32.pow(32)` wraps to `0` (a debug build already panics at zoom 31), the
clamp upper bound `n - 1` becomes `-1`, and every component returned is `-1`,
below the lower end of `[0, 2^32 - 1]`.  Exhibited on a bounding box with
non-finite coordinates, for which the whole computation is exact integer
arithmetic. -/
theorem tile_bounds_i32_out_of_range_at_32 :
    ((BoundingBoxF.mk .inf .nan .nan .inf).tile_bounds_i32 32).1 = -1 ∧
    ¬ (0 ≤ ((BoundingBoxF.mk .inf .nan .nan .inf).tile_bounds_i32 32).1 ∧
        ((BoundingBoxF.mk .inf .nan .nan .inf).tile_bounds_i32 32).1 ≤ 2 ^ 32 - 1) := by
  decide

/-- Witness for C3 (amended) at the concrete zoom 5 on a bounding box whose
coordinates are all non-finite (`north = NaN`, `east = +inf`, `south = -inf`,
`west = NaN`). -/
theorem tile_bounds_i32_mem_range_witness :
    (0 ≤ ((BoundingBoxF.mk .nan .inf .ninf .nan).tile_bounds_i32 5).1 ∧
      ((BoundingBoxF.mk .nan .inf .ninf .nan).tile_bounds_i32 5).1 ≤ 2 ^ 5 - 1) ∧
    (0 ≤ ((BoundingBoxF.mk .nan .inf .ninf .nan).tile_bounds_i32 5).2.1 ∧
      ((BoundingBoxF.mk .nan .inf .ninf .nan).tile_bounds_i32 5).2.1 ≤ 2 ^ 5 - 1) ∧
    (0 ≤ ((BoundingBoxF.mk .nan .inf .ninf .nan).tile_bounds_i32 5).2.2.1 ∧
      ((BoundingBoxF.mk .nan .inf .ninf .nan).tile_bounds_i32 5).2.2.1 ≤ 2 ^ 5 - 1) ∧
    (0 ≤ ((BoundingBoxF.mk .nan .inf .ninf .nan).tile_bounds_i32 5).2.2.2 ∧
      ((BoundingBoxF.mk .nan .inf .ninf .nan).tile_bounds_i32 5).2.2.2 ≤ 2 ^ 5 - 1) :=
  tile_bounds_i32_mem_range (BoundingBoxF.mk .nan .inf .ninf .nan) 5 (by norm_num)

/-! ### Numerical bounds for the whole-world bounding box (claim C4)

`tile_bounds` at `north = 85.0511` depends on
`mercNorth = asinh (tan (85.0511·π/180))`.  The lemmas below sandwich it
between `π·524287/524288` and `π·1048575/1048576` (these thresholds decide the
row index at zooms 20 and 21): interval Taylor bounds for `sin`/`cos` at
`wAng/16`, four double-angle steps up to `wAng`, division for `tan wAng`, the
cofunction identity, and `exp` bounds for the comparison with `sinh` at the two
rational thresholds. -/

theorem sincos_double (sl su cl cu sl2 su2 cl2 cu2 : ℝ) {y : ℝ}
    (hsl : sl ≤ Real.sin y) (hsu : Real.sin y ≤ su)
    (hcl : cl ≤ Real.cos y) (hcu : Real.cos y ≤ cu)
    (hsl0 : 0 ≤ sl) (hcl0 : 0 ≤ cl)
    (h1 : sl2 ≤ 2 * sl * cl) (h2 : 2 * su * cu ≤ su2)
    (h3 : cl2 ≤ 2 * cl ^ 2 - 1) (h4 : 2 * cu ^ 2 - 1 ≤ cu2) :
    sl2 ≤ Real.sin (2 * y) ∧ Real.sin (2 * y) ≤ su2 ∧
      cl2 ≤ Real.cos (2 * y) ∧ Real.cos (2 * y) ≤ cu2 := by
  have hs0 : 0 ≤ Real.sin y := hsl0.trans hsl
  have hc0 : 0 ≤ Real.cos y := hcl0.trans hcl
  rw [Real.sin_two_mul, Real.cos_two_mul]
  refine ⟨?_, ?_, ?_, ?_⟩
  · nlinarith [mul_le_mul hsl hcl hcl0 hs0]
  · nlinarith [mul_le_mul hsu hcu hc0 (hs0.trans hsu)]
  · nlinarith [pow_le_pow_left₀ hcl0 hcl 2]
  · nlinarith [pow_le_pow_left₀ hc0 hcu 2]

theorem taylor_base (L H sl su cl cu : ℝ) {y : ℝ}
    (hL : L ≤ y) (hH : y ≤ H) (h0 : 0 ≤ L) (h1 : H ≤ 1)
    (hsl : sl ≤ L - H ^ 3 / 6 - H ^ 4 * (5 / 96))
    (hsu : H - L ^ 3 / 6 + H ^ 4 * (5 / 96) ≤ su)
    (hcl : cl ≤ 1 - H ^ 2 / 2 - H ^ 4 * (5 / 96))
    (hcu : 1 - L ^ 2 / 2 + H ^ 4 * (5 / 96) ≤ cu) :
    sl ≤ Real.sin y ∧ Real.sin y ≤ su ∧ cl ≤ Real.cos y ∧ Real.cos y ≤ cu := by
  have hy0 : 0 ≤ y := h0.trans hL
  have hys : |y| ≤ 1 := by rw [abs_of_nonneg hy0]; exact hH.trans h1
  have hs := Real.sin_bound hys
  have hc := Real.cos_bound hys
  rw [abs_of_nonneg hy0] at hs hc
  rw [abs_le] at hs hc
  have e3 : y ^ 3 ≤ H ^ 3 := pow_le_pow_left₀ hy0 hH 3
  have e3l : L ^ 3 ≤ y ^ 3 := pow_le_pow_left₀ h0 hL 3
  have e4 : y ^ 4 ≤ H ^ 4 := pow_le_pow_left₀ hy0 hH 4
  have e2 : y ^ 2 ≤ H ^ 2 := pow_le_pow_left₀ hy0 hH 2
  have e2l : L ^ 2 ≤ y ^ 2 := pow_le_pow_left₀ h0 hL 2
  refine ⟨?_, ?_, ?_, ?_⟩
  · linarith [hs.1]
  · linarith [hs.2]
  · linarith [hc.1]
  · linarith [hc.2]

theorem wAng_div16_bounds :
    (0.0053984124594967110270 : ℝ) ≤ wAng / 16 ∧
      wAng / 16 ≤ 0.0053984124594967110271 := by
  unfold wAng
  constructor
  · nlinarith [Real.pi_gt_d20]
  · nlinarith [Real.pi_lt_d20]

theorem wAng_sincos :
    (0.08626723747224921870 : ℝ) ≤ Real.sin wAng ∧
      Real.sin wAng ≤ 0.08626723953505497783 ∧
      (0.99627201253053491547 : ℝ) ≤ Real.cos wAng ∧
      Real.cos wAng ≤ 0.99627203515065702109 := by
  obtain ⟨hL, hH⟩ := wAng_div16_bounds
  have b0 := taylor_base 0.0053984124594967110270 0.0053984124594967110271
    0.00539838619440155376 0.00539838628287094116
    0.99998542852722388164 0.99998542861569326904
    hL hH (by norm_num) (by norm_num) (by norm_num) (by norm_num) (by norm_num) (by norm_num)
  have b1 := sincos_double 0.00539838619440155376 0.00539838628287094116
    0.99998542852722388164 0.99998542861569326904
    0.01079661506392817412 0.01079661524181955453
    0.99994171453355116429 0.99994171488742355739
    b0.1 b0.2.1 b0.2.2.1 b0.2.2.2 (by norm_num) (by norm_num)
    (by norm_num) (by norm_num) (by norm_num) (by norm_num)
  rw [show (2 : ℝ) * (wAng / 16) = wAng / 8 by ring] at b1
  have b2 := sincos_double 0.01079661506392817412 0.01079661524181955453
    0.99994171453355116429 0.99994171488742355739
    0.02159197155636620908 0.02159197191976948109
    0.99976686492859585547 0.99976686634400292566
    b1.1 b1.2.1 b1.2.2.1 b1.2.2.2 (by norm_num) (by norm_num)
    (by norm_num) (by norm_num) (by norm_num) (by norm_num)
  rw [show (2 : ℝ) * (wAng / 8) = wAng / 4 by ring] at b2
  have b3 := sincos_double 0.02159197155636620908 0.02159197191976948109
    0.99976686492859585547 0.99976686634400292566
    0.04317387542107131877 0.04317387620883127813
    0.99906756841830645911 0.99906757407861481977
    b2.1 b2.2.1 b2.2.2.1 b2.2.2.2 (by norm_num) (by norm_num)
    (by norm_num) (by norm_num) (by norm_num) (by norm_num)
  rw [show (2 : ℝ) * (wAng / 4) = wAng / 2 by ring] at b3
  have b4 := sincos_double 0.04317387542107131877 0.04317387620883127813
    0.99906756841830645911 0.99906757407861481977
    0.08626723747224921870 0.08626723953505497783
    0.99627201253053491547 0.99627203515065702109
    b3.1 b3.2.1 b3.2.2.1 b3.2.2.2 (by norm_num) (by norm_num)
    (by norm_num) (by norm_num) (by norm_num) (by norm_num)
  rw [show (2 : ℝ) * (wAng / 2) = wAng by ring] at b4
  exact b4

theorem tan_wAng_bounds :
    (0.08659004210552173222 : ℝ) ≤ Real.tan wAng ∧
      Real.tan wAng ≤ 0.08659004614205295474 := by
  obtain ⟨hsl, hsu, hcl, hcu⟩ := wAng_sincos
  have hc0 : (0 : ℝ) < Real.cos wAng := by linarith
  rw [Real.tan_eq_sin_div_cos]
  constructor
  · rw [le_div_iff₀ hc0]
    nlinarith
  · rw [div_le_iff₀ hc0]
    nlinarith

theorem exp_one_bounds :
    (2.71828182845904523534 : ℝ) ≤ Real.exp 1 ∧ Real.exp 1 ≤ 2.71828182845904523537 := by
  have h := Real.exp_one_near_20
  rw [abs_le] at h
  constructor <;> [linarith [h.1, show (363916618873 / 133877442384 - 1 / 10 ^ 20 : ℝ) ≥
      2.71828182845904523534 by norm_num];
    linarith [h.2, show (363916618873 / 133877442384 + 1 / 10 ^ 20 : ℝ) ≤
      2.71828182845904523537 by norm_num]]

theorem exp_three_bounds :
    (20.08553692318766774047 : ℝ) ≤ Real.exp 3 ∧ Real.exp 3 ≤ 20.08553692318766774115 := by
  have h3 : Real.exp 3 = Real.exp 1 ^ 3 := by
    rw [← Real.exp_nat_mul]; norm_num
  obtain ⟨hl, hu⟩ := exp_one_bounds
  rw [h3]
  constructor
  · calc (20.08553692318766774047 : ℝ) ≤ 2.71828182845904523534 ^ 3 := by norm_num
      _ ≤ Real.exp 1 ^ 3 := pow_le_pow_left₀ (by norm_num) hl 3
  · calc Real.exp 1 ^ 3 ≤ (2.71828182845904523537 : ℝ) ^ 3 :=
        pow_le_pow_left₀ (Real.exp_pos 1).le hu 3
      _ ≤ 20.08553692318766774115 := by norm_num

theorem exp_r2_upper :
    Real.exp 0.14158666147734056019 ≤ 1.15210034265241972563 := by
  have habs : |(0.14158666147734056019 : ℝ)| ≤ 1 := by
    rw [abs_of_nonneg (by norm_num)]; norm_num
  have hb := Real.exp_bound habs (show (0 : ℕ) < 9 by norm_num)
  rw [abs_le] at hb
  have h2 := hb.2
  rw [abs_of_nonneg (show (0:ℝ) ≤ 0.14158666147734056019 by norm_num)] at h2
  norm_num [Finset.sum_range_succ, Nat.factorial] at h2
  linarith

theorem exp_r1_lower :
    (1.15210379441485547465 : ℝ) ≤ Real.exp 0.14158965753356689931 := by
  have habs : |(0.14158965753356689931 : ℝ)| ≤ 1 := by
    rw [abs_of_nonneg (by norm_num)]; norm_num
  have hb := Real.exp_bound habs (show (0 : ℕ) < 9 by norm_num)
  rw [abs_le] at hb
  have h1 := hb.1
  rw [abs_of_nonneg (show (0:ℝ) ≤ 0.14158965753356689931 by norm_num)] at h1
  norm_num [Finset.sum_range_succ, Nat.factorial] at h1
  linarith

theorem exp_q2_le :
    Real.exp 3.14158666147734056019 ≤ 23.14055397156234022332 := by
  have hsplit : (3.14158666147734056019 : ℝ) = 3 + 0.14158666147734056019 := by norm_num
  rw [hsplit, Real.exp_add]
  calc Real.exp 3 * Real.exp 0.14158666147734056019
      ≤ 20.08553692318766774115 * 1.15210034265241972563 :=
        mul_le_mul exp_three_bounds.2 exp_r2_upper (Real.exp_pos _).le (by norm_num)
    _ ≤ 23.14055397156234022332 := by norm_num

theorem exp_q1_ge :
    (23.14062330206419353167 : ℝ) ≤ Real.exp 3.14158965753356689931 := by
  have hsplit : (3.14158965753356689931 : ℝ) = 3 + 0.14158965753356689931 := by norm_num
  rw [hsplit, Real.exp_add]
  calc (23.14062330206419353167 : ℝ)
      ≤ 20.08553692318766774047 * 1.15210379441485547465 := by norm_num
    _ ≤ Real.exp 3 * Real.exp 0.14158965753356689931 :=
        mul_le_mul exp_three_bounds.1 exp_r1_lower (by norm_num) (Real.exp_pos _).le

theorem mercNorth_eq_arsinh_inv : mercNorth = Real.arsinh (Real.tan wAng)⁻¹ := by
  unfold mercNorth
  have hcast : ((85.0511 : ℚ) : ℝ) = 850511 / 10000 := by norm_num
  have hang : toRadians ((85.0511 : ℚ) : ℝ) = π / 2 - wAng := by
    unfold toRadians wAng; rw [hcast]; ring
  rw [hang, Real.tan_pi_div_two_sub]

theorem tan_wAng_pos : (0 : ℝ) < Real.tan wAng :=
  lt_of_lt_of_le (by norm_num) tan_wAng_bounds.1

theorem mercNorth_bounds :
    π * (524287 / 524288) < mercNorth ∧ mercNorth < π * (1048575 / 1048576) := by
  rw [mercNorth_eq_arsinh_inv]
  constructor
  · -- lower: sinh (π·524287/524288) < (tan wAng)⁻¹
    have hq : π * (524287 / 524288) < 3.14158666147734056019 := by
      nlinarith [Real.pi_lt_d20]
    have hmono : Real.sinh (π * (524287 / 524288)) < Real.sinh 3.14158666147734056019 :=
      Real.sinh_lt_sinh.mpr hq
    have hE : Real.exp 3.14158666147734056019 ≤ 23.14055397156234022332 := exp_q2_le
    have hEpos : (0 : ℝ) < Real.exp 3.14158666147734056019 := Real.exp_pos _
    have hinv : (23.14055397156234022332 : ℝ)⁻¹ ≤ (Real.exp 3.14158666147734056019)⁻¹ :=
      inv_anti₀ hEpos hE
    have hsinh : Real.sinh 3.14158666147734056019 ≤
        (23.14055397156234022332 - (23.14055397156234022332 : ℝ)⁻¹) / 2 := by
      rw [Real.sinh_eq, Real.exp_neg]
      linarith
    have htan : (Real.tan wAng)⁻¹ ≥ (0.08659004614205295474 : ℝ)⁻¹ :=
      inv_anti₀ tan_wAng_pos tan_wAng_bounds.2
    have hnum : ((23.14055397156234022332 : ℝ) - (23.14055397156234022332 : ℝ)⁻¹) / 2 <
        (0.08659004614205295474 : ℝ)⁻¹ := by norm_num
    calc π * (524287 / 524288)
        = Real.arsinh (Real.sinh (π * (524287 / 524288))) := (Real.arsinh_sinh _).symm
      _ < Real.arsinh (Real.tan wAng)⁻¹ := by
          apply Real.arsinh_lt_arsinh.mpr
          linarith
  · -- upper: (tan wAng)⁻¹ < sinh (π·1048575/1048576)
    have hq : (3.14158965753356689931 : ℝ) < π * (1048575 / 1048576) := by
      nlinarith [Real.pi_gt_d20]
    have hmono : Real.sinh 3.14158965753356689931 < Real.sinh (π * (1048575 / 1048576)) :=
      Real.sinh_lt_sinh.mpr hq
    have hE : (23.14062330206419353167 : ℝ) ≤ Real.exp 3.14158965753356689931 := exp_q1_ge
    have hinv : (Real.exp 3.14158965753356689931)⁻¹ ≤ (23.14062330206419353167 : ℝ)⁻¹ :=
      inv_anti₀ (by norm_num) hE
    have hsinh : ((23.14062330206419353167 : ℝ) - (23.14062330206419353167 : ℝ)⁻¹) / 2 ≤
        Real.sinh 3.14158965753356689931 := by
      rw [Real.sinh_eq, Real.exp_neg]
      linarith
    have htan : (Real.tan wAng)⁻¹ ≤ (0.08659004210552173222 : ℝ)⁻¹ :=
      inv_anti₀ (by norm_num) tan_wAng_bounds.1
    have hnum : ((0.08659004210552173222 : ℝ))⁻¹ ≤
        ((23.14062330206419353167 : ℝ) - (23.14062330206419353167 : ℝ)⁻¹) / 2 := by norm_num
    calc Real.arsinh (Real.tan wAng)⁻¹
        < Real.arsinh (Real.sinh (π * (1048575 / 1048576))) := by
          apply Real.arsinh_lt_arsinh.mpr
          linarith
      _ = π * (1048575 / 1048576) := Real.arsinh_sinh _

theorem clamp_eval_zero {n : ℤ} (h : 1 ≤ n) : clamp 0 n = 0 := by
  unfold clamp
  rw [max_self, min_eq_left (by omega)]

theorem clamp_eval_top {n : ℤ} (h : 1 ≤ n) : clamp n n = n - 1 := by
  unfold clamp
  rw [max_eq_left (by omega), min_eq_right (by omega)]

theorem clamp_eval_id {v n : ℤ} (h0 : 0 ≤ v) (h1 : v ≤ n - 1) : clamp v n = v := by
  unfold clamp
  rw [max_eq_left h0, min_eq_left h1]

theorem mercSouth_eq : Real.arsinh (Real.tan (toRadians ((-85.0511 : ℚ) : ℝ))) = -mercNorth := by
  have h1 : ((-85.0511 : ℚ) : ℝ) = -((85.0511 : ℚ) : ℝ) := by push_cast; ring
  have h2 : toRadians (-((85.0511 : ℚ) : ℝ)) = -toRadians ((85.0511 : ℚ) : ℝ) := by
    unfold toRadians; ring
  rw [h1, h2, Real.tan_neg, Real.arsinh_neg, mercNorth]

/-- C4 (amended): for the whole-world bounding box
`north = 85.0511, east = 180, south = -85.0511, west = -180`, `tile_bounds`
returns `(0, 2^z - 1, 0, 2^z - 1)` at every zoom `z ≤ 20` (but not at every
zoom: see `tile_bounds_world_ne_at_21`). -/
theorem tile_bounds_world (z : ℕ) (hz : z ≤ 20) :
    worldBBox.tile_bounds z = (0, 2 ^ z - 1, 0, 2 ^ z - 1) := by
  have hB := mercNorth_bounds.1
  have hC := mercNorth_bounds.2
  have hpi : (0 : ℝ) < π := Real.pi_pos
  have hm0 : (0 : ℝ) < mercNorth := lt_trans (by positivity) hB
  have hmpi : mercNorth < π := by nlinarith
  have hk1 : 1 - mercNorth / π < 1 / 524288 := by
    have h : (524287 / 524288 : ℝ) < mercNorth / π := by
      rw [lt_div_iff₀ hpi]; nlinarith
    linarith
  have hk2 : (0 : ℝ) < 1 - mercNorth / π := by
    have h : mercNorth / π < 1 := by rw [div_lt_one hpi]; exact hmpi
    linarith
  have hNpos : (0 : ℝ) < (2 : ℝ) ^ z := by positivity
  have hNle : (2 : ℝ) ^ z ≤ 2 ^ 20 := pow_le_pow_right₀ (by norm_num) hz
  have hprod : (1 - mercNorth / π) / 2 * (2 : ℝ) ^ z < 1 := by
    nlinarith [mul_lt_mul_of_pos_right hk1 hNpos,
      mul_le_mul_of_nonneg_left hNle (show (0 : ℝ) ≤ 1 / 524288 by norm_num)]
  have hprod0 : 0 ≤ (1 - mercNorth / π) / 2 * (2 : ℝ) ^ z := by positivity
  have hymin : ⌊(1 - mercNorth / π) / 2 * (2 : ℝ) ^ z⌋ = 0 := by
    rw [Int.floor_eq_zero_iff]
    exact ⟨hprod0, hprod⟩
  have hqpos : 0 < (1 - mercNorth / π) / 2 * (2 : ℝ) ^ z := by positivity
  have hsum : (1 - -mercNorth / π) / 2 * (2 : ℝ) ^ z =
      (2 : ℝ) ^ z - (1 - mercNorth / π) / 2 * (2 : ℝ) ^ z := by ring
  have hymax : ⌊(1 - -mercNorth / π) / 2 * (2 : ℝ) ^ z⌋ = 2 ^ z - 1 := by
    rw [Int.floor_eq_iff]
    constructor
    · push_cast
      rw [hsum]
      linarith
    · push_cast
      rw [hsum]
      linarith
  have hxmin : ⌊(((-180 : ℚ) : ℝ) + 180) / 360 * (2 : ℝ) ^ z⌋ = 0 := by
    have h : (((-180 : ℚ) : ℝ) + 180) / 360 * (2 : ℝ) ^ z = 0 := by push_cast; ring
    rw [h, Int.floor_zero]
  have hxmax : ⌊(((180 : ℚ) : ℝ) + 180) / 360 * (2 : ℝ) ^ z⌋ = 2 ^ z := by
    have h : (((180 : ℚ) : ℝ) + 180) / 360 * (2 : ℝ) ^ z = ((2 ^ z : ℤ) : ℝ) := by
      push_cast; ring
    rw [h, Int.floor_intCast]
  have hfold : Real.arsinh (Real.tan (toRadians ((85.0511 : ℚ) : ℝ))) = mercNorth := rfl
  have hcast : (((2 : ℤ) ^ z : ℤ) : ℝ) = (2 : ℝ) ^ z := by push_cast; ring
  unfold BoundingBox.tile_bounds
  simp only [worldBBox, hcast, hfold, mercSouth_eq]
  rw [hxmin, hxmax, hymin, hymax]
  have h1 : (1 : ℤ) ≤ 2 ^ z := one_le_pow₀ one_le_two
  rw [show (2 ^ z - 1 - (2 ^ z - 1) : ℤ) = 0 by ring, show (2 ^ z - 1 - 0 : ℤ) = 2 ^ z - 1 by ring]
  rw [clamp_eval_zero h1, clamp_eval_top h1, clamp_eval_id (by omega) (by omega)]

/-- C4 (counterexample): at zoom 21 the whole-world bounding box does not map
to the full tile range: the slippy row of `north = 85.0511` is already `1`
there, so the fourth component is at most `2^21 - 2`. -/
theorem tile_bounds_world_ne_at_21 :
    worldBBox.tile_bounds 21 ≠ (0, 2 ^ 21 - 1, 0, 2 ^ 21 - 1) := by
  have hC := mercNorth_bounds.2
  have hpi : (0 : ℝ) < π := Real.pi_pos
  have hk : (1 / 1048576 : ℝ) < 1 - mercNorth / π := by
    have h : mercNorth / π < (1048575 / 1048576 : ℝ) := by
      rw [div_lt_iff₀ hpi]; nlinarith
    linarith
  have hymin : (1 : ℤ) ≤ ⌊(1 - mercNorth / π) / 2 * (2 : ℝ) ^ 21⌋ := by
    rw [Int.le_floor]
    push_cast
    nlinarith
  have hcomp : (worldBBox.tile_bounds 21).2.2.2 ≤ 2 ^ 21 - 2 := by
    have hfold : Real.arsinh (Real.tan (toRadians ((85.0511 : ℚ) : ℝ))) = mercNorth := rfl
    have hcast : (((2 : ℤ) ^ 21 : ℤ) : ℝ) = (2 : ℝ) ^ 21 := by push_cast; ring
    unfold BoundingBox.tile_bounds
    simp only [worldBBox, hcast, hfold]
    unfold clamp
    omega
  intro h
  have h4 := congrArg (fun p : ℤ × ℤ × ℤ × ℤ => p.2.2.2) h
  simp only at h4
  omega

/-- Witness for C4 (amended) at the concrete zoom 20. -/
theorem tile_bounds_world_witness :
    worldBBox.tile_bounds 20 = (0, 2 ^ 20 - 1, 0, 2 ^ 20 - 1) :=
  tile_bounds_world 20 (by norm_num)

/-! ### Infrastructure lemmas about the archive-copier model -/

theorem fsLookup_fsSet_self (fs : Fs) (p : String) (k : FileKind) :
    fsLookup (fsSet fs p k) p = some k := by
  induction fs with
  | nil => simp [fsSet, fsLookup]
  | cons hd tl ih =>
      by_cases h : p = hd.1
      · simp [fsSet, fsLookup, h]
      · simp [fsSet, fsLookup, h, ih]

theorem fsLookup_fsSet_ne (fs : Fs) (p q : String) (k : FileKind) (h : q ≠ p) :
    fsLookup (fsSet fs p k) q = fsLookup fs q := by
  induction fs with
  | nil => simp [fsSet, fsLookup, h]
  | cons hd tl ih =>
      by_cases h2 : p = hd.1
      · subst h2
        simp [fsSet, fsLookup, h]
      · by_cases h3 : q = hd.1 <;> simp [fsSet, fsLookup, h2, h3, ih]

theorem copyMetadataRows_of_no_err (rows : List (Option String × Option String))
    (h : (copyMetadataRows rows).2 = none) : (copyMetadataRows rows).1 = rows := by
  induction rows with
  | nil => rfl
  | cons hd tl ih =>
      match hd with
      | (some n, some v) =>
          simp only [copyMetadataRows] at h ⊢
          rw [ih h]
      | (none, _) => simp [copyMetadataRows] at h
      | (some _, none) => simp [copyMetadataRows] at h

theorem copyMetadataRows_err_of_null (rows : List (Option String × Option String))
    (h : ∃ p ∈ rows, p.1 = none ∨ p.2 = none) :
    (copyMetadataRows rows).2 = some .metadataValue := by
  induction rows with
  | nil => simp at h
  | cons hd tl ih =>
      match hd with
      | (some n, some v) =>
          simp only [copyMetadataRows]
          rcases h with ⟨p, hp, hbad⟩
          rcases List.mem_cons.mp hp with rfl | hmem
          · simp at hbad
          · exact ih ⟨p, hmem, hbad⟩
      | (none, _) => rfl
      | (some _, none) => rfl

theorem copyMetadataRows_no_err_of_some (rows : List (Option String × Option String))
    (h : ∀ p ∈ rows, p.1.isSome ∧ p.2.isSome) : (copyMetadataRows rows).2 = none := by
  induction rows with
  | nil => rfl
  | cons hd tl ih =>
      match hd with
      | (some n, some v) =>
          simp only [copyMetadataRows]
          exact ih fun p hp => h p (List.mem_cons_of_mem _ hp)
      | (none, b) => exact absurd (h (none, b) (List.mem_cons_self _ _)).1 (by simp)
      | (some a, none) => exact absurd (h (some a, none) (List.mem_cons_self _ _)).2 (by simp)

theorem copyMetadataRows_all_some (rows : List (Option String × Option String)) :
    ∀ p ∈ (copyMetadataRows rows).1, p.1.isSome ∧ p.2.isSome := by
  induction rows with
  | nil => simp [copyMetadataRows]
  | cons hd tl ih =>
      match hd with
      | (some n, some v) =>
          simp only [copyMetadataRows, List.mem_cons]
          rintro p (rfl | hp)
          · simp
          · exact ih p hp
      | (none, _) => simp [copyMetadataRows]
      | (some _, none) => simp [copyMetadataRows]

theorem mem_insertSorted {b a : ℕ} {l : List ℕ} :
    b ∈ insertSorted a l ↔ b = a ∨ b ∈ l := by
  induction l with
  | nil => simp [insertSorted]
  | cons hd tl ih =>
      by_cases h : a ≤ hd
      · simp [insertSorted, h]
      · simp [insertSorted, h, ih]
        tauto

theorem mem_sortNat {a : ℕ} {l : List ℕ} : a ∈ sortNat l ↔ a ∈ l := by
  induction l with
  | nil => simp [sortNat]
  | cons hd tl ih =>
      simp only [sortNat, List.foldr_cons, List.mem_cons]
      rw [show List.foldr insertSorted [] tl = sortNat tl from rfl] at *
      rw [mem_insertSorted, ih]

theorem mem_zoomLevels {z : ℕ} {tiles : List TileRow} :
    z ∈ zoomLevels tiles ↔ ∃ t ∈ tiles, t.zoom = z := by
  unfold zoomLevels
  rw [List.mem_dedup, mem_sortNat, List.mem_map]

theorem mem_selectTiles {t : TileRow} {tiles : List TileRow} {z : ℕ} {r : ℤ × ℤ × ℤ × ℤ} :
    t ∈ selectTiles tiles z r ↔ t ∈ tiles ∧ t.zoom = z ∧ inRect r t := by
  unfold selectTiles inRect
  rw [List.mem_filter, decide_eq_true_iff]

theorem insertTiles_ok {rows acc res : List TileRow} (h : insertTiles rows acc = .ok res) :
    res = acc ++ rows := by
  induction rows generalizing acc with
  | nil =>
      simp only [insertTiles, Except.ok.injEq] at h
      simp [h.symm]
  | cons t rest ih =>
      unfold insertTiles at h
      match hd : t.data with
      | none => rw [hd] at h; exact absurd h (by simp)
      | some d =>
          rw [hd] at h
          by_cases hc : acc.any fun u => decide (sameCoord u t)
          · rw [if_pos hc] at h; exact absurd h (by simp)
          · rw [if_neg hc] at h
            rw [ih h]
            simp

theorem insertTiles_pairwise {rows acc res : List TileRow}
    (h : insertTiles rows acc = .ok res)
    (hacc : acc.Pairwise fun a b => ¬ sameCoord a b) :
    res.Pairwise fun a b => ¬ sameCoord a b := by
  induction rows generalizing acc with
  | nil =>
      simp only [insertTiles, Except.ok.injEq] at h
      exact h ▸ hacc
  | cons t rest ih =>
      unfold insertTiles at h
      match hd : t.data with
      | none => rw [hd] at h; exact absurd h (by simp)
      | some d =>
          rw [hd] at h
          by_cases hc : acc.any fun u => decide (sameCoord u t)
          · rw [if_pos hc] at h; exact absurd h (by simp)
          · rw [if_neg hc] at h
            refine ih h ?_
            rw [List.pairwise_append]
            refine ⟨hacc, by simp, ?_⟩
            intro a ha b hb
            rw [List.mem_singleton] at hb
            subst hb
            rw [List.any_eq_true] at hc
            push_neg at hc
            intro hcoord
            exact hc a ha (decide_eq_true hcoord)

theorem copyAllTiles_ok_mem {src : List TileRow} {rect : ℕ → ℤ × ℤ × ℤ × ℤ}
    {zs : List ℕ} {acc res : List TileRow}
    (h : copyAllTiles src rect zs acc = .ok res) :
    ∀ t, t ∈ res ↔ t ∈ acc ∨ ∃ z ∈ zs, t ∈ selectTiles src z (rect z) := by
  induction zs generalizing acc with
  | nil =>
      simp only [copyAllTiles, Except.ok.injEq] at h
      subst h
      simp
  | cons z zs ih =>
      unfold copyAllTiles at h
      match hins : insertTiles (selectTiles src z (rect z)) acc with
      | .error e => rw [hins] at h; exact absurd h (by simp)
      | .ok acc2 =>
          rw [hins] at h
          intro t
          rw [ih h t, insertTiles_ok hins]
          simp only [List.mem_append, List.mem_cons]
          constructor
          · rintro ((h1 | h1) | ⟨w, hw, hsel⟩)
            · exact Or.inl h1
            · exact Or.inr ⟨z, Or.inl rfl, h1⟩
            · exact Or.inr ⟨w, Or.inr hw, hsel⟩
          · rintro (h1 | ⟨w, (rfl | hw), hsel⟩)
            · exact Or.inl (Or.inl h1)
            · exact Or.inl (Or.inr hsel)
            · exact Or.inr ⟨w, hw, hsel⟩

theorem copyAllTiles_pairwise {src : List TileRow} {rect : ℕ → ℤ × ℤ × ℤ × ℤ}
    {zs : List ℕ} {acc res : List TileRow}
    (h : copyAllTiles src rect zs acc = .ok res)
    (hacc : acc.Pairwise fun a b => ¬ sameCoord a b) :
    res.Pairwise fun a b => ¬ sameCoord a b := by
  induction zs generalizing acc with
  | nil =>
      simp only [copyAllTiles, Except.ok.injEq] at h
      exact h ▸ hacc
  | cons z zs ih =>
      unfold copyAllTiles at h
      match hins : insertTiles (selectTiles src z (rect z)) acc with
      | .error e => rw [hins] at h; exact absurd h (by simp)
      | .ok acc2 =>
          rw [hins] at h
          exact ih h (insertTiles_pairwise hins hacc)

theorem copyAllTiles_empty_selects {src : List TileRow} {rect : ℕ → ℤ × ℤ × ℤ × ℤ}
    {zs : List ℕ} (acc : List TileRow)
    (h : ∀ z ∈ zs, selectTiles src z (rect z) = []) :
    copyAllTiles src rect zs acc = .ok acc := by
  induction zs generalizing acc with
  | nil => rfl
  | cons z zs ih =>
      unfold copyAllTiles
      rw [h z (List.mem_cons_self _ _)]
      exact ih acc fun w hw => h w (List.mem_cons_of_mem _ hw)

theorem sameCoord_refl (t : TileRow) : sameCoord t t := by
  unfold sameCoord
  exact ⟨rfl, rfl, rfl⟩

theorem fsSet_fsSet (fs : Fs) (p : String) (a b : FileKind) :
    fsSet (fsSet fs p a) p b = fsSet fs p b := by
  induction fs with
  | nil => simp [fsSet]
  | cons hd tl ih =>
      by_cases h : p = hd.1
      · simp [fsSet, h]
      · simp [fsSet, h, ih]

theorem copyMetadataRows_snd (rows : List (Option String × Option String)) :
    (copyMetadataRows rows).2 = none ∨
      (copyMetadataRows rows).2 = some ExtractError.metadataValue := by
  induction rows with
  | nil => exact Or.inl rfl
  | cons hd tl ih =>
      rcases hd with ⟨_ | n, _ | v⟩
      · exact Or.inr rfl
      · exact Or.inr rfl
      · exact Or.inr rfl
      · simpa [copyMetadataRows] using ih

/-- Evaluation of the `extract_tiles` pipeline under the standard situation
(valid bbox string, input path holding an archive with the schema, output path
fresh), up to but excluding the metadata-copy outcome: the run result as a
function of the metadata copy and the tile copy. -/
theorem extract_tiles_run (fs : Fs) (i o s : String) (bbox : BoundingBox) (src : MBDb)
    (hparse : BoundingBox.parse s = .ok bbox)
    (hi : fsLookup fs i = some (.db src))
    (ho : fsLookup fs o = none)
    (hschema : src.hasSchema = true) :
    extract_tiles fs i o s =
      match (copyMetadataRows src.metadata).2 with
      | some e => (fsSet fs o (.db ⟨true, (copyMetadataRows src.metadata).1, []⟩), .error e)
      | none =>
          match copyAllTiles src.tiles bbox.tile_bounds (zoomLevels src.tiles) [] with
          | .error e =>
              (fsSet fs o (.db ⟨true, (copyMetadataRows src.metadata).1, []⟩), .error e)
          | .ok inserted =>
              (fsSet fs o (.db ⟨true, (copyMetadataRows src.metadata).1, inserted⟩),
                .ok inserted.length) := by
  have hio : i ≠ o := by
    intro h
    rw [h, ho] at hi
    exact absurd hi (by simp)
  unfold extract_tiles
  rw [hparse]
  simp only [connOpen, hi, ho, createSchema, emptyDb, queryMetadata, queryTiles, hschema,
    fsSet_fsSet, if_true, Bool.false_eq_true, if_false]

theorem count_le_one_of_pairwise {l : List TileRow}
    (h : l.Pairwise fun a b => ¬ sameCoord a b) (t : TileRow) : l.count t ≤ 1 := by
  induction l with
  | nil => simp
  | cons a l ih =>
      rw [List.count_cons]
      rcases List.pairwise_cons.mp h with ⟨ha, htail⟩
      by_cases he : t = a
      · have hnot : t ∉ l := by
          intro hmem
          refine ha t hmem ?_
          rw [he]
          exact sameCoord_refl a
        rw [List.count_eq_zero.mpr hnot, if_pos (by simp [he])]
      · rw [if_neg (by simp [beq_iff_eq]; exact fun hh => he hh.symm)]
        simpa using ih htail

theorem selectTiles_eq_nil_of_inverted (tiles : List TileRow) (z : ℕ) (r : ℤ × ℤ × ℤ × ℤ)
    (h : r.1 > r.2.1 ∨ r.2.2.1 > r.2.2.2) : selectTiles tiles z r = [] := by
  unfold selectTiles
  apply List.filter_eq_nil_iff.mpr
  intro t ht
  simp only [decide_eq_true_iff]
  rintro ⟨hz, h1, h2, h3, h4⟩
  rcases h with h | h <;> omega

/-! ### The claims about the archive copier -/

/-- C6: if the `--bbox` argument does not have exactly four comma-separated
numeric fields (wrong field count, or some field that does not parse as a
number), `extract_tiles` fails with the bounding-box error before opening
either file: the filesystem is returned unchanged, so the destination file is
not created. -/
theorem extract_invalid_bbox (fs : Fs) (i o s : String)
    (h : (splitOnChar ',' s.toList).length ≠ 4 ∨
      ∃ p ∈ splitOnChar ',' s.toList, parseDecimal (trimChars p) = none) :
    extract_tiles fs i o s = (fs, .error .invalidBoundingBox) := by
  have hp : ∀ b : BoundingBox, BoundingBox.parse s ≠ .ok b := by
    intro b hpp
    unfold BoundingBox.parse at hpp
    rcases hsp : splitOnChar ',' s.toList
      with _ | ⟨p0, _ | ⟨p1, _ | ⟨p2, _ | ⟨p3, _ | ⟨p4, rest⟩⟩⟩⟩⟩ <;>
      rw [hsp] at hpp
    · simp at hpp
    · simp at hpp
    · simp at hpp
    · simp at hpp
    · rcases h with hlen | ⟨p, hpmem, hnone⟩
      · rw [hsp] at hlen
        simp at hlen
      · rw [hsp] at hpmem
        simp only [List.mem_cons, List.not_mem_nil, or_false] at hpmem
        dsimp only at hpp
        rcases hpmem with rfl | rfl | rfl | rfl
        · rw [hnone] at hpp
          simp at hpp
        · rw [hnone] at hpp
          rcases parseDecimal (trimChars p0) with _ | v0 <;> simp at hpp
        · rw [hnone] at hpp
          rcases parseDecimal (trimChars p0) with _ | v0 <;>
            rcases parseDecimal (trimChars p1) with _ | v1 <;> simp at hpp
        · rw [hnone] at hpp
          rcases parseDecimal (trimChars p0) with _ | v0 <;>
            rcases parseDecimal (trimChars p1) with _ | v1 <;>
              rcases parseDecimal (trimChars p2) with _ | v2 <;> simp at hpp
    · simp at hpp
  match hpe : BoundingBox.parse s with
  | .ok b => exact absurd hpe (hp b)
  | .error e =>
      unfold extract_tiles
      rw [hpe]

/-- C5: behaviour of `extract_tiles` when the input path does not exist.  The
source is not opened read-only: SQLite's default open creates an empty
database file at the input path, the open step itself succeeds, and the run
fails only later, at the metadata query, with the metadata-query error rather
than the source-open (`SourceUnreadable`) error. -/
theorem extract_missing_input (fs : Fs) (i o s : String) (bbox : BoundingBox)
    (hparse : BoundingBox.parse s = .ok bbox)
    (hi : fsLookup fs i = none) (ho : fsLookup fs o = none) (hio : i ≠ o) :
    (extract_tiles fs i o s).2 = .error .metadataQuery ∧
      (extract_tiles fs i o s).2 ≠ .error .sourceOpen ∧
      fsLookup (extract_tiles fs i o s).1 i = some (.db emptyDb) := by
  have hlo : fsLookup (fsSet fs i (.db emptyDb)) o = none := by
    rw [fsLookup_fsSet_ne fs i o (.db emptyDb) (Ne.symm hio)]
    exact ho
  have hcs : createSchema (.db emptyDb) = .ok ⟨true, [], []⟩ := rfl
  have hqm : queryMetadata (.db emptyDb) = .error .metadataQuery := rfl
  have hrw : extract_tiles fs i o s =
      (fsSet (fsSet fs i (.db emptyDb)) o (.db ⟨true, [], []⟩), .error .metadataQuery) := by
    unfold extract_tiles
    rw [hparse]
    simp only [connOpen, hi, hlo, hcs, hqm, fsSet_fsSet]
  rw [hrw]
  refine ⟨rfl, ?_, ?_⟩
  · simp
  · rw [fsLookup_fsSet_ne _ o i _ hio, fsLookup_fsSet_self]

/-- C10: a NULL in either column of a source metadata row makes the run fail
with the row-decoding error: the bad row is neither copied nor skipped (the
destination only ever holds rows with both columns present, and the run stops
with an error instead of continuing past the row). -/
theorem extract_null_metadata (fs : Fs) (i o s : String) (bbox : BoundingBox) (src : MBDb)
    (hparse : BoundingBox.parse s = .ok bbox)
    (hi : fsLookup fs i = some (.db src))
    (ho : fsLookup fs o = none)
    (hschema : src.hasSchema = true)
    (hbad : ∃ p ∈ src.metadata, p.1 = none ∨ p.2 = none) :
    (extract_tiles fs i o s).2 = .error .metadataValue ∧
      ∃ dst : MBDb, fsLookup (extract_tiles fs i o s).1 o = some (.db dst) ∧
        dst.tiles = [] ∧ ∀ p ∈ dst.metadata, p.1.isSome ∧ p.2.isSome := by
  have hm := copyMetadataRows_err_of_null src.metadata hbad
  rw [extract_tiles_run fs i o s bbox src hparse hi ho hschema]
  simp only [hm]
  refine ⟨by trivial, ⟨true, (copyMetadataRows src.metadata).1, []⟩,
    fsLookup_fsSet_self _ _ _, by trivial, copyMetadataRows_all_some _⟩

/-- C7: the tile copy is one transaction.  If the run fails during the tile
copy (a NULL `tile_data` or a unique-index collision), no tiles are visible in
the destination, while the metadata rows, copied earlier outside this
transaction, persist in full. -/
theorem extract_tile_error_atomic (fs : Fs) (i o s : String) (bbox : BoundingBox)
    (src : MBDb) (e : ExtractError)
    (hparse : BoundingBox.parse s = .ok bbox)
    (hi : fsLookup fs i = some (.db src))
    (ho : fsLookup fs o = none)
    (hschema : src.hasSchema = true)
    (herr : (extract_tiles fs i o s).2 = .error e)
    (he : e = .tileValue ∨ e = .tileInsert) :
    ∃ dst : MBDb, fsLookup (extract_tiles fs i o s).1 o = some (.db dst) ∧
      dst.tiles = [] ∧ dst.metadata = src.metadata := by
  rw [extract_tiles_run fs i o s bbox src hparse hi ho hschema] at herr ⊢
  rcases copyMetadataRows_snd src.metadata with hm | hm
  · simp only [hm] at herr ⊢
    match hc : copyAllTiles src.tiles bbox.tile_bounds (zoomLevels src.tiles) [] with
    | .ok ins =>
        rw [hc] at herr
        simp at herr
    | .error e2 =>
        dsimp only
        exact ⟨⟨true, (copyMetadataRows src.metadata).1, []⟩, fsLookup_fsSet_self _ _ _,
          rfl, copyMetadataRows_of_no_err _ hm⟩
  · simp only [hm] at herr
    simp only [Except.error.injEq] at herr
    rcases he with rfl | rfl <;> simp at herr

/-- C8: on a successful run every source metadata row is copied verbatim into
the destination, in source order, duplicates included, with no transformation:
the destination metadata table equals the source metadata table. -/
theorem extract_metadata_fidelity (fs fs' : Fs) (i o s : String) (cnt : ℕ)
    (bbox : BoundingBox) (src : MBDb)
    (hparse : BoundingBox.parse s = .ok bbox)
    (hi : fsLookup fs i = some (.db src))
    (ho : fsLookup fs o = none)
    (hschema : src.hasSchema = true)
    (hrun : extract_tiles fs i o s = (fs', .ok cnt)) :
    ∃ dst : MBDb, fsLookup fs' o = some (.db dst) ∧ dst.metadata = src.metadata := by
  rw [extract_tiles_run fs i o s bbox src hparse hi ho hschema] at hrun
  rcases copyMetadataRows_snd src.metadata with hm | hm
  · simp only [hm] at hrun
    match hc : copyAllTiles src.tiles bbox.tile_bounds (zoomLevels src.tiles) [] with
    | .error e2 =>
        rw [hc] at hrun
        simp at hrun
    | .ok ins =>
        rw [hc] at hrun
        have hfs : fs' = fsSet fs o (.db ⟨true, (copyMetadataRows src.metadata).1, ins⟩) := by
          have h1 := congrArg Prod.fst hrun
          simpa using h1.symm
        rw [hfs]
        exact ⟨_, fsLookup_fsSet_self _ _ _, copyMetadataRows_of_no_err _ hm⟩
  · simp only [hm] at hrun
    simp at hrun

/-- C1: on a successful run, every source tile whose column and row lie inside
the `tile_bounds` rectangle of its zoom level appears exactly once in the
destination tiles table, with its payload unmodified (the destination row is
the source row), and every destination row is such a source tile; in
particular no tile outside every rectangle appears. -/
theorem extract_completeness (fs fs' : Fs) (i o s : String) (cnt : ℕ)
    (bbox : BoundingBox) (src : MBDb)
    (hparse : BoundingBox.parse s = .ok bbox)
    (hi : fsLookup fs i = some (.db src))
    (ho : fsLookup fs o = none)
    (hschema : src.hasSchema = true)
    (hrun : extract_tiles fs i o s = (fs', .ok cnt)) :
    ∃ dst : MBDb, fsLookup fs' o = some (.db dst) ∧
      (∀ t ∈ src.tiles, inRect (bbox.tile_bounds t.zoom) t → dst.tiles.count t = 1) ∧
      (∀ t ∈ dst.tiles, t ∈ src.tiles ∧ inRect (bbox.tile_bounds t.zoom) t) := by
  rw [extract_tiles_run fs i o s bbox src hparse hi ho hschema] at hrun
  rcases copyMetadataRows_snd src.metadata with hm | hm
  · simp only [hm] at hrun
    match hc : copyAllTiles src.tiles bbox.tile_bounds (zoomLevels src.tiles) [] with
    | .error e2 =>
        rw [hc] at hrun
        simp at hrun
    | .ok ins =>
        rw [hc] at hrun
        have hfs : fs' = fsSet fs o (.db ⟨true, (copyMetadataRows src.metadata).1, ins⟩) := by
          have h1 := congrArg Prod.fst hrun
          simpa using h1.symm
        refine ⟨⟨true, (copyMetadataRows src.metadata).1, ins⟩,
          by rw [hfs]; exact fsLookup_fsSet_self _ _ _, ?_, ?_⟩
        · intro t ht hin
          have hmem : t ∈ ins := by
            rw [copyAllTiles_ok_mem hc t]
            exact Or.inr ⟨t.zoom, mem_zoomLevels.mpr ⟨t, ht, rfl⟩,
              mem_selectTiles.mpr ⟨ht, rfl, hin⟩⟩
          have h1 : 0 < ins.count t := List.count_pos_iff.mpr hmem
          have h2 : ins.count t ≤ 1 :=
            count_le_one_of_pairwise (copyAllTiles_pairwise hc List.Pairwise.nil) t
          show ins.count t = 1
          omega
        · intro t ht
          have ht2 : t ∈ ins := ht
          rw [copyAllTiles_ok_mem hc t] at ht2
          rcases ht2 with h0 | ⟨z, _, hsel⟩
          · exact absurd h0 (List.not_mem_nil t)
          · obtain ⟨hsrc, hzoom, hin⟩ := mem_selectTiles.mp hsel
            exact ⟨hsrc, hzoom ▸ hin⟩
  · simp only [hm] at hrun
    simp at hrun

/-- C9: an inverted rectangle from `tile_bounds` (`col_min > col_max` or
`row_min > row_max`) is not corrected: the range query at that zoom level
selects zero tiles, and a run whose rectangles are all inverted completes
without error, reporting zero copied tiles. -/
theorem extract_inverted_range :
    (∀ (tiles : List TileRow) (z : ℕ) (b : BoundingBox),
        ((b.tile_bounds z).1 > (b.tile_bounds z).2.1 ∨
          (b.tile_bounds z).2.2.1 > (b.tile_bounds z).2.2.2) →
        selectTiles tiles z (b.tile_bounds z) = []) ∧
      ∀ (fs : Fs) (i o s : String) (bbox : BoundingBox) (src : MBDb),
        BoundingBox.parse s = .ok bbox →
        fsLookup fs i = some (.db src) →
        fsLookup fs o = none →
        src.hasSchema = true →
        (∀ p ∈ src.metadata, p.1.isSome ∧ p.2.isSome) →
        (∀ z ∈ zoomLevels src.tiles,
            (bbox.tile_bounds z).1 > (bbox.tile_bounds z).2.1 ∨
            (bbox.tile_bounds z).2.2.1 > (bbox.tile_bounds z).2.2.2) →
        (extract_tiles fs i o s).2 = .ok 0 := by
  constructor
  · intro tiles z b h
    exact selectTiles_eq_nil_of_inverted tiles z _ h
  · intro fs i o s bbox src hparse hi ho hschema hmeta hinv
    have hm := copyMetadataRows_no_err_of_some src.metadata hmeta
    have hsel : ∀ z ∈ zoomLevels src.tiles,
        selectTiles src.tiles z (bbox.tile_bounds z) = [] := fun z hz =>
      selectTiles_eq_nil_of_inverted src.tiles z _ (hinv z hz)
    rw [extract_tiles_run fs i o s bbox src hparse hi ho hschema]
    simp only [hm]
    rw [copyAllTiles_empty_selects [] hsel]
    rfl

/-! ### Concrete evaluations and witnesses -/

theorem tile_bounds_eval_world0 :
    BoundingBox.tile_bounds ⟨0, 180, 0, -180⟩ 0 = (0, 0, 0, 0) := by
  unfold BoundingBox.tile_bounds
  have ht : toRadians ((0 : ℚ) : ℝ) = 0 := by
    unfold toRadians
    norm_num
  have hy : (1 - Real.arsinh (Real.tan (toRadians ((0 : ℚ) : ℝ))) / π) / 2 *
      (((2 : ℤ) ^ 0 : ℤ) : ℝ) = 1 / 2 := by
    rw [ht, Real.tan_zero, Real.arsinh_zero]
    norm_num
  have hx1 : (((-180 : ℚ) : ℝ) + 180) / 360 * (((2 : ℤ) ^ 0 : ℤ) : ℝ) = 0 := by
    push_cast
    norm_num
  have hx2 : (((180 : ℚ) : ℝ) + 180) / 360 * (((2 : ℤ) ^ 0 : ℤ) : ℝ) = 1 := by
    push_cast
    norm_num
  simp only [hy, hx1, hx2]
  norm_num
  unfold clamp
  norm_num

theorem tile_bounds_eval_inverted :
    BoundingBox.tile_bounds ⟨0, -10, 0, 10⟩ 1 = (1, 0, 0, 0) := by
  unfold BoundingBox.tile_bounds
  have ht : toRadians ((0 : ℚ) : ℝ) = 0 := by
    unfold toRadians
    norm_num
  have hy : (1 - Real.arsinh (Real.tan (toRadians ((0 : ℚ) : ℝ))) / π) / 2 *
      (((2 : ℤ) ^ 1 : ℤ) : ℝ) = 1 := by
    rw [ht, Real.tan_zero, Real.arsinh_zero]
    norm_num
  have hx1 : (((10 : ℚ) : ℝ) + 180) / 360 * (((2 : ℤ) ^ 1 : ℤ) : ℝ) = 19 / 18 := by
    push_cast
    norm_num
  have hx2 : (((-10 : ℚ) : ℝ) + 180) / 360 * (((2 : ℤ) ^ 1 : ℤ) : ℝ) = 17 / 18 := by
    push_cast
    norm_num
  simp only [hy, hx1, hx2]
  norm_num
  unfold clamp
  norm_num

/-- A concrete successful run: one metadata row, one tile at zoom 0, a
whole-world (zero-latitude) bounding box; the tile is copied and counted. -/
theorem run_example :
    extract_tiles [("a", FileKind.db ⟨true, [(some "k", some "v")], [⟨0, 0, 0, some [7]⟩]⟩)]
        "a" "b" "0,180,0,-180" =
      ([("a", FileKind.db ⟨true, [(some "k", some "v")], [⟨0, 0, 0, some [7]⟩]⟩),
        ("b", FileKind.db ⟨true, [(some "k", some "v")], [⟨0, 0, 0, some [7]⟩]⟩)],
        .ok 1) := by
  have hparse : BoundingBox.parse "0,180,0,-180" = .ok ⟨0, 180, 0, -180⟩ := by decide
  rw [extract_tiles_run
    [("a", FileKind.db ⟨true, [(some "k", some "v")], [⟨0, 0, 0, some [7]⟩]⟩)]
    "a" "b" "0,180,0,-180" ⟨0, 180, 0, -180⟩
    ⟨true, [(some "k", some "v")], [⟨0, 0, 0, some [7]⟩]⟩ hparse rfl rfl rfl]
  have hsel : selectTiles [⟨0, 0, 0, some [7]⟩] 0
      ((⟨0, 180, 0, -180⟩ : BoundingBox).tile_bounds 0) = [⟨0, 0, 0, some [7]⟩] := by
    rw [tile_bounds_eval_world0]
    decide
  have hall : copyAllTiles [⟨0, 0, 0, some [7]⟩]
      (⟨0, 180, 0, -180⟩ : BoundingBox).tile_bounds
      (zoomLevels [⟨0, 0, 0, some [7]⟩]) [] = .ok [⟨0, 0, 0, some [7]⟩] := by
    have hz : zoomLevels [⟨0, 0, 0, some [7]⟩] = [0] := by decide
    rw [hz]
    unfold copyAllTiles
    rw [hsel]
    have hins : insertTiles [⟨0, 0, 0, some [7]⟩] ([] : List TileRow) =
        .ok [⟨0, 0, 0, some [7]⟩] := by decide
    rw [hins]
    rfl
  dsimp only
  rw [hall]
  decide

/-- Witness for C1 at the concrete run of `run_example`. -/
theorem extract_completeness_witness :
    ∃ dst : MBDb,
      fsLookup [("a", FileKind.db ⟨true, [(some "k", some "v")], [⟨0, 0, 0, some [7]⟩]⟩),
          ("b", FileKind.db ⟨true, [(some "k", some "v")], [⟨0, 0, 0, some [7]⟩]⟩)] "b" =
        some (.db dst) ∧
      (∀ t ∈ (⟨true, [(some "k", some "v")], [⟨0, 0, 0, some [7]⟩]⟩ : MBDb).tiles,
          inRect ((⟨0, 180, 0, -180⟩ : BoundingBox).tile_bounds t.zoom) t →
          dst.tiles.count t = 1) ∧
      (∀ t ∈ dst.tiles,
          t ∈ (⟨true, [(some "k", some "v")], [⟨0, 0, 0, some [7]⟩]⟩ : MBDb).tiles ∧
          inRect ((⟨0, 180, 0, -180⟩ : BoundingBox).tile_bounds t.zoom) t) :=
  extract_completeness
    [("a", FileKind.db ⟨true, [(some "k", some "v")], [⟨0, 0, 0, some [7]⟩]⟩)]
    [("a", FileKind.db ⟨true, [(some "k", some "v")], [⟨0, 0, 0, some [7]⟩]⟩),
      ("b", FileKind.db ⟨true, [(some "k", some "v")], [⟨0, 0, 0, some [7]⟩]⟩)]
    "a" "b" "0,180,0,-180" 1 ⟨0, 180, 0, -180⟩
    ⟨true, [(some "k", some "v")], [⟨0, 0, 0, some [7]⟩]⟩
    (by decide) rfl rfl rfl run_example

/-- Witness for C8 at the concrete run of `run_example`. -/
theorem extract_metadata_fidelity_witness :
    ∃ dst : MBDb,
      fsLookup [("a", FileKind.db ⟨true, [(some "k", some "v")], [⟨0, 0, 0, some [7]⟩]⟩),
          ("b", FileKind.db ⟨true, [(some "k", some "v")], [⟨0, 0, 0, some [7]⟩]⟩)] "b" =
        some (.db dst) ∧
      dst.metadata = (⟨true, [(some "k", some "v")], [⟨0, 0, 0, some [7]⟩]⟩ : MBDb).metadata :=
  extract_metadata_fidelity
    [("a", FileKind.db ⟨true, [(some "k", some "v")], [⟨0, 0, 0, some [7]⟩]⟩)]
    [("a", FileKind.db ⟨true, [(some "k", some "v")], [⟨0, 0, 0, some [7]⟩]⟩),
      ("b", FileKind.db ⟨true, [(some "k", some "v")], [⟨0, 0, 0, some [7]⟩]⟩)]
    "a" "b" "0,180,0,-180" 1 ⟨0, 180, 0, -180⟩
    ⟨true, [(some "k", some "v")], [⟨0, 0, 0, some [7]⟩]⟩
    (by decide) rfl rfl rfl run_example

/-- Witness for C5 at a concrete filesystem without the input path. -/
theorem extract_missing_input_witness :
    (extract_tiles [] "a" "b" "1,2,3,4").2 = .error .metadataQuery ∧
      (extract_tiles [] "a" "b" "1,2,3,4").2 ≠ .error .sourceOpen ∧
      fsLookup (extract_tiles [] "a" "b" "1,2,3,4").1 "a" = some (.db emptyDb) :=
  extract_missing_input [] "a" "b" "1,2,3,4" ⟨1, 2, 3, 4⟩ (by decide) rfl rfl (by decide)

/-- Witness for C6 at the three-field bounding box of the spec (§8). -/
theorem extract_invalid_bbox_witness :
    extract_tiles [] "a" "b" "1,2,3" = ([], .error .invalidBoundingBox) :=
  extract_invalid_bbox [] "a" "b" "1,2,3" (Or.inl (by decide))

/-- Witness for C7: a run whose only selected tile has NULL `tile_data`. -/
theorem extract_tile_error_atomic_witness :
    ∃ dst : MBDb,
      fsLookup (extract_tiles [("a", FileKind.db ⟨true, [(some "k", some "v")], [⟨0, 0, 0, none⟩]⟩)]
          "a" "b" "0,180,0,-180").1 "b" = some (.db dst) ∧
      dst.tiles = [] ∧
      dst.metadata = (⟨true, [(some "k", some "v")], [⟨0, 0, 0, none⟩]⟩ : MBDb).metadata := by
  have hparse : BoundingBox.parse "0,180,0,-180" = .ok ⟨0, 180, 0, -180⟩ := by decide
  have herr : (extract_tiles [("a", FileKind.db ⟨true, [(some "k", some "v")], [⟨0, 0, 0, none⟩]⟩)]
      "a" "b" "0,180,0,-180").2 = .error .tileValue := by
    rw [extract_tiles_run
      [("a", FileKind.db ⟨true, [(some "k", some "v")], [⟨0, 0, 0, none⟩]⟩)]
      "a" "b" "0,180,0,-180" ⟨0, 180, 0, -180⟩
      ⟨true, [(some "k", some "v")], [⟨0, 0, 0, none⟩]⟩ hparse rfl rfl rfl]
    have hsel : selectTiles [⟨0, 0, 0, none⟩] 0
        ((⟨0, 180, 0, -180⟩ : BoundingBox).tile_bounds 0) = [⟨0, 0, 0, none⟩] := by
      rw [tile_bounds_eval_world0]
      decide
    have hall : copyAllTiles [⟨0, 0, 0, none⟩]
        (⟨0, 180, 0, -180⟩ : BoundingBox).tile_bounds
        (zoomLevels [⟨0, 0, 0, none⟩]) [] = .error .tileValue := by
      have hz : zoomLevels [⟨0, 0, 0, none⟩] = [0] := by decide
      rw [hz]
      unfold copyAllTiles
      rw [hsel]
      rfl
    dsimp only
    rw [hall]
    decide
  exact extract_tile_error_atomic
    [("a", FileKind.db ⟨true, [(some "k", some "v")], [⟨0, 0, 0, none⟩]⟩)]
    "a" "b" "0,180,0,-180" ⟨0, 180, 0, -180⟩
    ⟨true, [(some "k", some "v")], [⟨0, 0, 0, none⟩]⟩ .tileValue hparse rfl rfl rfl
    herr (Or.inl rfl)

/-- Witness for C9: an east-west-swapped box gives an inverted column range at
zoom 1 and a complete, zero-tile run. -/
theorem extract_inverted_range_witness :
    selectTiles [⟨1, 0, 0, some []⟩] 1 ((⟨0, -10, 0, 10⟩ : BoundingBox).tile_bounds 1) = [] ∧
      (extract_tiles [("a", FileKind.db ⟨true, [], [⟨1, 0, 0, some []⟩]⟩)]
          "a" "b" "0,-10,0,10").2 = .ok 0 := by
  constructor
  · exact extract_inverted_range.1 _ 1 _ (by
      rw [tile_bounds_eval_inverted]
      exact Or.inl (by norm_num))
  · refine extract_inverted_range.2
      [("a", FileKind.db ⟨true, [], [⟨1, 0, 0, some []⟩]⟩)]
      "a" "b" "0,-10,0,10" ⟨0, -10, 0, 10⟩ ⟨true, [], [⟨1, 0, 0, some []⟩]⟩
      (by decide) rfl rfl rfl ?_ ?_
    · intro p hp
      simp at hp
    · intro z hz
      have hzl : zoomLevels [⟨1, 0, 0, some []⟩] = [1] := by decide
      rw [hzl] at hz
      simp at hz
      subst hz
      rw [tile_bounds_eval_inverted]
      exact Or.inl (by norm_num)

/-- Witness for C10: a source metadata row with a NULL name. -/
theorem extract_null_metadata_witness :
    (extract_tiles [("a", FileKind.db ⟨true, [(none, some "v")], []⟩)] "a" "b" "1,2,3,4").2 =
        .error .metadataValue ∧
      ∃ dst : MBDb,
        fsLookup (extract_tiles [("a", FileKind.db ⟨true, [(none, some "v")], []⟩)]
            "a" "b" "1,2,3,4").1 "b" = some (.db dst) ∧
        dst.tiles = [] ∧ ∀ p ∈ dst.metadata, p.1.isSome ∧ p.2.isSome :=
  extract_null_metadata
    [("a", FileKind.db ⟨true, [(none, some "v")], []⟩)]
    "a" "b" "1,2,3,4" ⟨1, 2, 3, 4⟩ ⟨true, [(none, some "v")], []⟩
    (by decide) rfl rfl rfl
    ⟨(none, some "v"), by decide, Or.inl rfl⟩

end Mbtiles
